import Mathlib

/-!
# Verification of the anemoi-graphs utility functions

Shallow embedding of `src/anemoi/graphs/utils.py` (functions
`get_nearest_neighbour`, `get_grid_reference_distance`, `add_margin`,
`get_index_in_outer_join`) together with proofs of the specified properties.

Numbers (python floats) are modelled by an arbitrary linearly ordered
commutative ring `α`: the code only uses addition, multiplication, negation
and comparisons.  Fallible code (python `assert` failures and library
runtime errors) is modelled with `Except UtilError`.
-/

deriving instance DecidableEq for Except

namespace AnemoiGraphs

/-- A point is a `(latitude, longitude)` pair, in radians. -/
abbrev Point (α : Type) := α × α

/-- The ways the modelled code can fail:
* `shapeMismatch` — the `assert` on the mask shape in `get_nearest_neighbour`;
* `invalidArgument` — the `assert margin >= 0` in `add_margin`;
* `runtimeError` — an implementation-specific runtime error propagated from a
  library call (numpy `ValueError` from `.max()` on an empty array, torch
  `RuntimeError` from `int()` on a multi-element tensor). -/
inductive UtilError where
  | shapeMismatch
  | invalidArgument
  | runtimeError
  deriving DecidableEq, Repr

/-- Model of a torch boolean tensor as used for the `mask` argument: the shape
reported by `.shape` together with the flattened entries.  The code under
verification only inspects the shape. -/
structure BTensor where
  shape : List Nat
  data : List Bool
  deriving DecidableEq, Repr

/-- Model of the fitted sklearn `NearestNeighbors` index: it stores the
training points.  Queries are answered by exact scan under the metric `d`
passed to `kneighbors_dists`; `d` stands for the haversine metric of the
external library (sklearn is not part of this repository, so the metric is
kept abstract). -/
structure NearestNeighbors (α : Type) where
  points : List (Point α)
  deriving DecidableEq

variable {α : Type} [LinearOrderedCommRing α]

/-- Embedding of `get_nearest_neighbour` (utils.py lines 8–29): assert that
the mask, when given, has shape `(N, 1)`, then fit the index on the FULL
coordinate set (the mask is not applied). -/
def get_nearest_neighbour (coords_rad : List (Point α)) (mask : Option BTensor) :
    Except UtilError (NearestNeighbors α) :=
  if mask.all (fun m => decide (m.shape = [coords_rad.length, 1])) then
    .ok { points := coords_rad }
  else
    .error .shapeMismatch

/-- The distances part of sklearn `kneighbors(queries, n_neighbors,
return_distance=True)`: for each query point, the `n_neighbors` smallest
distances from the query to the training points, in ascending order. -/
def kneighbors_dists (d : Point α → Point α → α) (nn : NearestNeighbors α)
    (queries : List (Point α)) (n_neighbors : Nat) : List (List α) :=
  queries.map (fun q =>
    (List.insertionSort (· ≤ ·) (nn.points.map (fun p => d q p))).take n_neighbors)

/-- Embedding of `get_grid_reference_distance` (utils.py lines 32–51): query
the fitted index for each point's 2 nearest neighbours, keep the strictly
positive distances (`dists[dists > 0]`) and return their maximum.  numpy's
`.max()` on an empty selection raises a `ValueError`, modelled as
`runtimeError`. -/
def get_grid_reference_distance (d : Point α → Point α → α)
    (coords_rad : List (Point α)) (mask : Option BTensor) : Except UtilError α :=
  match get_nearest_neighbour coords_rad mask with
  | .error e => .error e
  | .ok nn =>
    match ((kneighbors_dists d nn coords_rad 2).flatten.filter
        (fun x => decide (0 < x))).max? with
    | some v => .ok v
    | none => .error .runtimeError

/-- Embedding of `add_margin` (utils.py lines 54–85): assert `margin >= 0`,
return the inputs unchanged when `margin == 0`, otherwise append, for each
`lat_sign` in `[-1, 0, 1]` and each `lon_sign` in `[-1, 0, 1]`, the block
`lats + lat_sign * margin` to the latitudes and `lons + lon_sign * margin`
to the longitudes, and concatenate the blocks.  `offsetBlocks` is the body of
the nested loop of `add_margin` (utils.py lines 80–83), one entry per
`(lat_sign, lon_sign)` iteration. -/
def offsetBlocks (lats lons : List α) (margin : α) : List (List α × List α) :=
  [(-1 : α), 0, 1].flatMap (fun lat_sign =>
    [(-1 : α), 0, 1].map (fun lon_sign =>
      (lats.map (fun x => x + lat_sign * margin),
       lons.map (fun x => x + lon_sign * margin))))

/-- Embedding of `add_margin` (utils.py lines 54–85): assert `margin >= 0`,
return the inputs unchanged when `margin == 0`, otherwise concatenate the
nine offset blocks. -/
def add_margin (lats lons : List α) (margin : α) :
    Except UtilError (List α × List α) :=
  if margin < 0 then .error .invalidArgument
  else if margin = 0 then .ok (lats, lons)
  else
    let blocks := offsetBlocks lats lons margin
    .ok ((blocks.map Prod.fst).flatten, (blocks.map Prod.snd).flatten)

/-- Embedding of `get_index_in_outer_join` (utils.py lines 88–108):
`mask = torch.all(tensor == vector, axis=1)`; if any entry of `mask` is true,
return `int(torch.where(mask)[0])` — which succeeds exactly when a single
index matches and raises a `RuntimeError` otherwise — else return `-1`. -/
def get_index_in_outer_join (vector : List α) (tensor : List (List α)) :
    Except UtilError Int :=
  let mask := tensor.map (fun row => decide (row = vector))
  if mask.any id then
    match (List.range tensor.length).filter (fun i => mask.getD i false) with
    | [i] => .ok (i : Int)
    | _ => .error .runtimeError
  else
    .ok (-1)

/-- A mask argument accepted by the shape assertion: absent, or of shape
`(N, 1)` where `N` is the number of coordinates. -/
def ValidMask (coords_rad : List (Point α)) (mask : Option BTensor) : Prop :=
  mask = none ∨ ∃ m, mask = some m ∧ m.shape = [coords_rad.length, 1]

/-- Taxicab metric, used to instantiate the abstract haversine parameter `d`
in concrete examples.  On points that share a longitude it coincides with the
haversine great-circle distance (for latitude differences of at most π), so
the concrete examples below are also genuine haversine examples. -/
def l1Dist (p q : Point α) : α := |p.1 - q.1| + |p.2 - q.2|

/-- `Modelled from the spec:` the brute-force O(N²) reference distance the
spec checks `get_grid_reference_distance` against — for point `i`, the
minimum positive distance from point `i` to any other point. -/
def minPosDistToOthers (d : Point α → Point α → α) (coords : List (Point α))
    (i : Fin coords.length) : Option α :=
  ((((List.finRange coords.length).filter (fun j => decide (j ≠ i))).map
      (fun j => d (coords.get i) (coords.get j))).filter
    (fun x => decide (0 < x))).min?

/-- `Modelled from the spec:` the brute-force O(N²) reference distance — the
maximum over all points of that point's minimum positive distance to any
other point. -/
def bruteForceRefDist (d : Point α → Point α → α) (coords : List (Point α)) :
    Option α :=
  ((List.finRange coords.length).filterMap
    (fun i => minPosDistToOthers d coords i)).max?

/-- `Modelled from the spec:` the offset variants `(p.lat + a*m, p.lon + b*m)`
for `a, b` in `{-1, 0, 1}` of every original point, one entry per
`(offset pair, point)` combination. -/
def allOffsetPoints (lats lons : List α) (margin : α) : List (α × α) :=
  ([(-1 : α), 0, 1].flatMap (fun a => [(-1 : α), 0, 1].map (fun b => (a, b)))).flatMap
    (fun ab => (lats.zip lons).map
      (fun p => (p.1 + ab.1 * margin, p.2 + ab.2 * margin)))

/-- Evaluation of `add_margin` on a strictly positive margin: both asserts
pass and the nine concatenated blocks are returned. -/
theorem add_margin_of_pos (lats lons : List α) (margin : α) (h : 0 < margin) :
    add_margin lats lons margin =
      .ok (((offsetBlocks lats lons margin).map Prod.fst).flatten,
           ((offsetBlocks lats lons margin).map Prod.snd).flatten) := by
  unfold add_margin
  rw [if_neg (not_lt.mpr h.le), if_neg (ne_of_gt h)]

/-- C4: `add_margin` with margin 0 returns the original sequences unchanged. -/
theorem add_margin_zero (lats lons : List α) :
    add_margin lats lons 0 = .ok (lats, lons) := by
  simp [add_margin]

/-- C8: `add_margin` fails with `invalidArgument` for every negative margin,
and for every non-negative margin the precondition check passes (the result
is a success). -/
theorem add_margin_negative_margin (lats lons : List α) (margin : α) :
    (margin < 0 → add_margin lats lons margin = .error .invalidArgument) ∧
    (0 ≤ margin → ∃ out, add_margin lats lons margin = .ok out) := by
  constructor
  · intro h
    simp [add_margin, h]
  · intro h
    rcases eq_or_lt_of_le h with h0 | h0
    · exact ⟨(lats, lons), by simp [add_margin, ← h0]⟩
    · exact ⟨_, add_margin_of_pos lats lons margin h0⟩

/-- C8 witness: at margin `-1` the result is the `invalidArgument` error, and
at margin `0` the check passes. -/
theorem add_margin_negative_margin_witness :
    add_margin [(5 : ℤ)] [7] (-1) = .error .invalidArgument ∧
    ∃ out, add_margin [(5 : ℤ)] [7] 0 = .ok out :=
  ⟨(add_margin_negative_margin [(5 : ℤ)] [7] (-1)).1 (by decide),
   (add_margin_negative_margin [(5 : ℤ)] [7] 0).2 (by decide)⟩

/-- C10: whenever `get_grid_reference_distance` returns a value, that value is
strictly positive: it is the maximum of a selection from which all
non-positive distances were discarded. -/
theorem grid_reference_distance_pos (d : Point α → Point α → α)
    (coords : List (Point α)) (mask : Option BTensor) (v : α)
    (h : get_grid_reference_distance d coords mask = .ok v) : 0 < v := by
  unfold get_grid_reference_distance at h
  split at h
  · exact absurd h (by simp)
  · split at h
    · next m hm =>
        have hv : m = v := by simpa using h
        subst hv
        have hmem := List.max?_mem max_choice hm
        have := (List.mem_filter.mp hmem).2
        exact of_decide_eq_true this
    · exact absurd h (by simp)

/-- C10 witness: on the two distinct points `(0,0)` and `(1,0)` the function
returns a value, and the theorem yields its positivity. -/
theorem grid_reference_distance_pos_witness : (0 : ℤ) < 1 :=
  grid_reference_distance_pos l1Dist [((0 : ℤ), 0), (1, 0)] none 1 (by decide)

/-- In a duplicate-free list, filtering with a predicate that holds exactly at
`a` yields `[a]`. -/
theorem filter_eq_singleton_of_nodup {β : Type} (l : List β) (a : β)
    (p : β → Bool) (hnd : l.Nodup) (ha : a ∈ l)
    (hp : ∀ x ∈ l, p x = true ↔ x = a) : l.filter p = [a] := by
  induction l with
  | nil => cases ha
  | cons b t ih =>
    rcases List.nodup_cons.mp hnd with ⟨hbt, hndt⟩
    by_cases hba : b = a
    · subst hba
      rw [List.filter_cons_of_pos ((hp b (.head t)).mpr rfl)]
      have ht : t.filter p = [] :=
        List.filter_eq_nil_iff.mpr
          (fun x hx hpx => hbt (((hp x (.tail _ hx)).mp hpx) ▸ hx))
      rw [ht]
    · have hat : a ∈ t := by
        rcases List.mem_cons.mp ha with h | h
        · exact absurd h.symm hba
        · exact h
      rw [List.filter_cons_of_neg (by simp [hp b (.head t), hba])]
      exact ih hndt hat (fun x hx => hp x (.tail _ hx))

omit [LinearOrderedCommRing α] in
/-- Whenever the mask is absent or has the asserted shape, the index is fitted
on the full coordinate set. -/
theorem get_nearest_neighbour_of_valid (coords : List (Point α))
    (mask : Option BTensor) (h : ValidMask coords mask) :
    get_nearest_neighbour coords mask = .ok ⟨coords⟩ := by
  rcases h with rfl | ⟨m, rfl, hm⟩
  · simp [get_nearest_neighbour, Option.all]
  · simp [get_nearest_neighbour, Option.all, hm]

omit [LinearOrderedCommRing α] in
/-- C6: a provided mask whose shape is not exactly `(N, 1)` makes
`get_nearest_neighbour` fail with the shape-mismatch error; a mask of the
right shape (or no mask) passes the shape check. -/
theorem get_nearest_neighbour_shape_check (coords : List (Point α))
    (m : BTensor) (mask : Option BTensor) :
    (m.shape ≠ [coords.length, 1] →
      get_nearest_neighbour coords (some m) = .error .shapeMismatch) ∧
    (ValidMask coords mask →
      get_nearest_neighbour coords mask = .ok ⟨coords⟩) := by
  constructor
  · intro h
    simp [get_nearest_neighbour, Option.all, h]
  · exact get_nearest_neighbour_of_valid coords mask

/-- C6 witness: with 5 coordinates, a mask of shape `(3, 1)` fails with
`shapeMismatch`, and no mask passes the check. -/
theorem get_nearest_neighbour_shape_check_witness :
    get_nearest_neighbour [((0 : ℤ), 0), (1, 0), (2, 0), (3, 0), (4, 0)]
        (some ⟨[3, 1], [true, true, false]⟩) = .error .shapeMismatch ∧
    get_nearest_neighbour [((0 : ℤ), 0), (1, 0), (2, 0), (3, 0), (4, 0)] none =
      .ok ⟨[((0 : ℤ), 0), (1, 0), (2, 0), (3, 0), (4, 0)]⟩ :=
  ⟨(get_nearest_neighbour_shape_check [((0 : ℤ), 0), (1, 0), (2, 0), (3, 0), (4, 0)]
      ⟨[3, 1], [true, true, false]⟩ none).1 (by decide),
   (get_nearest_neighbour_shape_check [((0 : ℤ), 0), (1, 0), (2, 0), (3, 0), (4, 0)]
      ⟨[3, 1], [true, true, false]⟩ none).2 (Or.inl rfl)⟩

/-- C7: the mask content is never applied — for any two accepted masks the
fitted index, and hence the reference distance, is identical. -/
theorem mask_not_applied (d : Point α → Point α → α) (coords : List (Point α))
    (m1 m2 : Option BTensor) (h1 : ValidMask coords m1)
    (h2 : ValidMask coords m2) :
    get_nearest_neighbour coords m1 = get_nearest_neighbour coords m2 ∧
    get_grid_reference_distance d coords m1 =
      get_grid_reference_distance d coords m2 := by
  have e1 := get_nearest_neighbour_of_valid coords m1 h1
  have e2 := get_nearest_neighbour_of_valid coords m2 h2
  refine ⟨e1.trans e2.symm, ?_⟩
  unfold get_grid_reference_distance
  rw [e1, e2]

/-- C7 witness: no mask and an all-different-content mask of shape `(2, 1)`
give the same fitted index and the same reference distance. -/
theorem mask_not_applied_witness :
    get_nearest_neighbour [((0 : ℤ), 0), (1, 0)] none =
      get_nearest_neighbour [((0 : ℤ), 0), (1, 0)] (some ⟨[2, 1], [true, false]⟩) ∧
    get_grid_reference_distance l1Dist [((0 : ℤ), 0), (1, 0)] none =
      get_grid_reference_distance l1Dist [((0 : ℤ), 0), (1, 0)]
        (some ⟨[2, 1], [true, false]⟩) :=
  mask_not_applied l1Dist [((0 : ℤ), 0), (1, 0)] none
    (some ⟨[2, 1], [true, false]⟩) (Or.inl rfl) (Or.inr ⟨_, rfl, by decide⟩)

/-- C5: if exactly one row of the matrix equals the query vector,
`get_index_in_outer_join` returns that row's index; if no row equals it, the
function returns `-1`. -/
theorem get_index_in_outer_join_spec (vector : List α) (tensor : List (List α)) :
    (∀ i : Fin tensor.length, tensor.get i = vector →
      (∀ j : Fin tensor.length, tensor.get j = vector → j = i) →
      get_index_in_outer_join vector tensor = .ok (i.val : Int)) ∧
    ((∀ row ∈ tensor, row ≠ vector) →
      get_index_in_outer_join vector tensor = .ok (-1)) := by
  constructor
  · intro i hi huniq
    unfold get_index_in_outer_join
    have hany : (tensor.map (fun row => decide (row = vector))).any id = true := by
      rw [List.any_eq_true]
      exact ⟨decide (tensor.get i = vector),
        List.mem_map.mpr ⟨tensor.get i, List.get_mem tensor i.val i.isLt, rfl⟩,
        by simpa [List.get_eq_getElem] using hi⟩
    rw [if_pos hany]
    have hfilter : (List.range tensor.length).filter
        (fun k => (tensor.map (fun row => decide (row = vector))).getD k false) =
        [i.val] := by
      apply filter_eq_singleton_of_nodup _ _ _ (List.nodup_range _)
        (List.mem_range.mpr i.isLt)
      intro k hk
      have hklt : k < tensor.length := List.mem_range.mp hk
      rw [List.getD_eq_getElem _ _ (by simpa using hklt), List.getElem_map]
      simp only [decide_eq_true_eq]
      constructor
      · intro hrow
        have := huniq ⟨k, hklt⟩ (by simpa using hrow)
        simpa [Fin.ext_iff] using this
      · intro hk'
        subst hk'
        simpa using hi
    rw [hfilter]
  · intro h
    unfold get_index_in_outer_join
    have hany : (tensor.map (fun row => decide (row = vector))).any id = false := by
      rw [List.any_eq_false]
      rintro b hb
      obtain ⟨row, hrow, rfl⟩ := List.mem_map.mp hb
      simp [h row hrow]
    rw [if_neg (by simp [hany])]

/-- C5 witness: in the matrix `[[1,2],[3,4],[5,6]]` the vector `[3,4]` is
found at index 1, and the absent vector `[9,9]` gives `-1`. -/
theorem get_index_in_outer_join_spec_witness :
    get_index_in_outer_join [(3 : ℤ), 4] [[1, 2], [3, 4], [5, 6]] = .ok 1 ∧
    get_index_in_outer_join [(9 : ℤ), 9] [[1, 2], [3, 4], [5, 6]] = .ok (-1) := by
  constructor
  · have := (get_index_in_outer_join_spec [(3 : ℤ), 4] [[1, 2], [3, 4], [5, 6]]).1
      ⟨1, by decide⟩ (by decide) (by decide)
    simpa using this
  · exact (get_index_in_outer_join_spec [(9 : ℤ), 9] [[1, 2], [3, 4], [5, 6]]).2
      (by decide)

/-- The nine `(lat_sign, lon_sign)` iterations of the `add_margin` loop,
written out in iteration order. -/
theorem offsetBlocks_eq (lats lons : List α) (margin : α) :
    offsetBlocks lats lons margin =
      [(lats.map (fun x => x + -1 * margin), lons.map (fun x => x + -1 * margin)),
       (lats.map (fun x => x + -1 * margin), lons.map (fun x => x + 0 * margin)),
       (lats.map (fun x => x + -1 * margin), lons.map (fun x => x + 1 * margin)),
       (lats.map (fun x => x + 0 * margin), lons.map (fun x => x + -1 * margin)),
       (lats.map (fun x => x + 0 * margin), lons.map (fun x => x + 0 * margin)),
       (lats.map (fun x => x + 0 * margin), lons.map (fun x => x + 1 * margin)),
       (lats.map (fun x => x + 1 * margin), lons.map (fun x => x + -1 * margin)),
       (lats.map (fun x => x + 1 * margin), lons.map (fun x => x + 0 * margin)),
       (lats.map (fun x => x + 1 * margin), lons.map (fun x => x + 1 * margin))] :=
  rfl

/-- In a concatenation of blocks all of length `N`, the slice
`[k*N, (k+1)*N)` is block `k`. -/
theorem flatten_drop_take {β : Type} (L : List (List β)) (N k : ℕ)
    (hk : k < L.length) (hlen : ∀ b ∈ L, b.length = N) :
    ((L.flatten.drop (k * N)).take N) = L.getD k [] := by
  induction L generalizing k with
  | nil => cases hk
  | cons b t ih =>
    cases k with
    | zero =>
      simp only [Nat.zero_mul, List.drop_zero, List.flatten_cons]
      rw [List.take_left' (hlen b (.head t))]
      rfl
    | succ k =>
      have hb : b.length = N := hlen b (.head t)
      have hmul : (k + 1) * N = b.length + k * N := by rw [hb]; ring
      rw [List.flatten_cons, hmul, List.drop_append]
      exact ih k (Nat.lt_of_succ_lt_succ hk) (fun c hc => hlen c (.tail _ hc))

/-- Zipping two block-concatenations whose corresponding blocks have equal
lengths is the concatenation of the block-wise zips. -/
theorem flatten_zip_flatten {β γ : Type} (L : List (List β × List γ))
    (hlen : ∀ p ∈ L, p.1.length = p.2.length) :
    ((L.map Prod.fst).flatten).zip ((L.map Prod.snd).flatten) =
      (L.map (fun p => p.1.zip p.2)).flatten := by
  induction L with
  | nil => rfl
  | cons p t ih =>
    simp only [List.map_cons, List.flatten_cons]
    rw [List.zip_append (hlen p (.head t)), ih (fun q hq => hlen q (.tail _ hq))]

/-- C3: for a positive margin the output of `add_margin` consists of 9
contiguous blocks of `N` points each, in the fixed nested iteration order:
block `k` applies latitude offset `(k / 3 - 1) * margin` and longitude offset
`(k % 3 - 1) * margin` to the original sequences in their original order. -/
theorem add_margin_blocks (lats lons : List α) (margin : α) (h : 0 < margin)
    (hlen : lons.length = lats.length) :
    ∃ la lo, add_margin lats lons margin = .ok (la, lo) ∧
      la.length = 9 * lats.length ∧ lo.length = 9 * lats.length ∧
      ∀ k, k < 9 →
        (la.drop (k * lats.length)).take lats.length =
          lats.map (fun x => x + (((k / 3 : ℕ) : α) - 1) * margin) ∧
        (lo.drop (k * lats.length)).take lats.length =
          lons.map (fun x => x + (((k % 3 : ℕ) : α) - 1) * margin) := by
  refine ⟨_, _, add_margin_of_pos lats lons margin h, ?_, ?_, ?_⟩
  · rw [offsetBlocks_eq]
    simp [List.length_flatten]
    ring
  · rw [offsetBlocks_eq]
    simp [List.length_flatten, hlen]
    ring
  · intro k hk
    rw [offsetBlocks_eq]
    simp only [List.map_cons, List.map_nil]
    constructor
    · rw [flatten_drop_take _ lats.length k (by simpa using hk)
        (by intro b hb; fin_cases hb <;> simp)]
      interval_cases k <;>
        · simp only [List.getD]
          refine List.map_congr_left (fun a _ => ?_)
          norm_num
    · rw [flatten_drop_take _ lats.length k (by simpa using hk)
        (by intro b hb; fin_cases hb <;> simp [hlen])]
      interval_cases k <;>
        · simp only [List.getD]
          refine List.map_congr_left (fun a _ => ?_)
          norm_num

/-- C3 witness: the block decomposition at `lats = lons = [0]`, margin 1. -/
theorem add_margin_blocks_witness :
    ∃ la lo, add_margin [(0 : ℤ)] [0] 1 = .ok (la, lo) ∧
      la.length = 9 * [(0 : ℤ)].length ∧ lo.length = 9 * [(0 : ℤ)].length ∧
      ∀ k, k < 9 →
        (la.drop (k * [(0 : ℤ)].length)).take [(0 : ℤ)].length =
          [(0 : ℤ)].map (fun x => x + (((k / 3 : ℕ) : ℤ) - 1) * 1) ∧
        (lo.drop (k * [(0 : ℤ)].length)).take [(0 : ℤ)].length =
          [(0 : ℤ)].map (fun x => x + (((k % 3 : ℕ) : ℤ) - 1) * 1) :=
  add_margin_blocks [(0 : ℤ)] [0] 1 (by decide) rfl

/-- C2 (amended): for a positive margin and equal-length inputs of length `N`,
`add_margin` returns parallel sequences of length `9 * N`, and the multiset of
output points is exactly the multiset of the `9 * N` generated offset
variants: every point of the output occurs as often as the `(point, offset)`
pairs generate it.  In particular each variant appears exactly once whenever
the generated variants are pairwise distinct; when variants collide their
multiplicities add up (see the counterexample), so the unconditional
``appears exactly once'' of the claim does not hold. -/
theorem add_margin_count (lats lons : List α) (margin : α) (h : 0 < margin)
    (hlen : lats.length = lons.length) :
    ∃ la lo, add_margin lats lons margin = .ok (la, lo) ∧
      la.length = 9 * lats.length ∧ lo.length = 9 * lats.length ∧
      la.zip lo = allOffsetPoints lats lons margin ∧
      ∀ v : α × α,
        (la.zip lo).count v = (allOffsetPoints lats lons margin).count v := by
  have hz : (((offsetBlocks lats lons margin).map Prod.fst).flatten).zip
      (((offsetBlocks lats lons margin).map Prod.snd).flatten) =
      allOffsetPoints lats lons margin := by
    rw [flatten_zip_flatten _ (by
      rw [offsetBlocks_eq]
      intro p hp
      fin_cases hp <;> simp [hlen])]
    rw [offsetBlocks_eq]
    simp only [List.map_cons, List.map_nil, List.zip_map]
    rw [allOffsetPoints]
    simp [Prod.map_def]
  refine ⟨_, _, add_margin_of_pos lats lons margin h, ?_, ?_, hz, fun v => by rw [hz]⟩
  · rw [offsetBlocks_eq]
    simp [List.length_flatten]
    ring
  · rw [offsetBlocks_eq]
    simp [List.length_flatten, ← hlen]
    ring

/-- C2 witness: at `lats = lons = [0]`, margin 1, the output has length 9 and
its multiset of points is the multiset of generated variants. -/
theorem add_margin_count_witness :
    ∃ la lo, add_margin [(0 : ℤ)] [0] 1 = .ok (la, lo) ∧
      la.length = 9 * [(0 : ℤ)].length ∧ lo.length = 9 * [(0 : ℤ)].length ∧
      la.zip lo = allOffsetPoints [(0 : ℤ)] [0] 1 ∧
      ∀ v : ℤ × ℤ,
        (la.zip lo).count v = (allOffsetPoints [(0 : ℤ)] [0] 1).count v :=
  add_margin_count [(0 : ℤ)] [0] 1 (by decide) rfl

/-- C2 counterexample: for the original points `(0,0)` and `(2,0)` with margin
1, the offset variant `(0 + 1*1, 0 + 0*1) = (1, 0)` of the original point
`(0,0)` appears twice in the output (it is also the variant
`(2 + (-1)*1, 0 + 0*1)` of `(2,0)`), not exactly once as the claim states. -/
theorem add_margin_exactly_once_cex :
    ∃ la lo, add_margin [(0 : ℤ), 2] [0, 0] 1 = .ok (la, lo) ∧
      (la.zip lo).count ((1 : ℤ), (0 : ℤ)) = 2 :=
  ⟨_, _, add_margin_of_pos [(0 : ℤ), 2] [0, 0] 1 (by decide), by decide⟩

/-- Characterization of `List.min?` in a linear order. -/
theorem min?_eq_some_iff_lo {β : Type} [LinearOrder β] {a : β} {l : List β} :
    l.min? = some a ↔ a ∈ l ∧ ∀ b ∈ l, a ≤ b := by
  exact @List.min?_eq_some_iff β a _ _ ⟨fun h h' => le_antisymm h h'⟩
    (fun _ => le_refl _) min_choice (fun _ _ _ => le_min_iff) l

/-- Characterization of `List.max?` in a linear order. -/
theorem max?_eq_some_iff_lo {β : Type} [LinearOrder β] {a : β} {l : List β} :
    l.max? = some a ↔ a ∈ l ∧ ∀ b ∈ l, b ≤ a := by
  exact @List.max?_eq_some_iff β a _ _ ⟨fun h h' => le_antisymm h h'⟩
    (fun _ => le_refl _) max_choice (fun _ _ _ => max_le_iff) l

/-- Every distance produced by a `kneighbors_dists` query on training points
`coords` is a distance `d q p` with `q` a query point and `p` a training
point. -/
theorem mem_kneighbors_dists (d : Point α → Point α → α)
    (nn : NearestNeighbors α) (queries : List (Point α)) (k : Nat) (a : α)
    (ha : a ∈ (kneighbors_dists d nn queries k).flatten) :
    ∃ q ∈ queries, ∃ p ∈ nn.points, a = d q p := by
  obtain ⟨row, hrow, harow⟩ := List.mem_flatten.mp ha
  obtain ⟨q, hq, rfl⟩ := List.mem_map.mp hrow
  have hsort : a ∈ List.insertionSort (· ≤ ·) (nn.points.map (fun p => d q p)) :=
    List.take_subset _ _ harow
  have hmem : a ∈ nn.points.map (fun p => d q p) :=
    (List.perm_insertionSort _ _).mem_iff.mp hsort
  obtain ⟨p, hp, rfl⟩ := List.mem_map.mp hmem
  exact ⟨q, hq, p, hp, rfl⟩

/-- C9 (amended): on a coordinate set of at least two points in which all
points are coincident (all pairwise distances are zero), the filtered
distance selection is empty and `get_grid_reference_distance` propagates the
implementation-specific runtime error of taking the maximum of an empty
array; no `EmptyResult` error and no sentinel value is defined. -/
theorem reference_distance_coincident (d : Point α → Point α → α)
    (coords : List (Point α)) (mask : Option BTensor)
    (_h2 : 2 ≤ coords.length) (hmask : ValidMask coords mask)
    (hzero : ∀ p ∈ coords, ∀ q ∈ coords, d p q = 0) :
    get_grid_reference_distance d coords mask = .error .runtimeError := by
  unfold get_grid_reference_distance
  rw [get_nearest_neighbour_of_valid coords mask hmask]
  have hfilter : ((kneighbors_dists d ⟨coords⟩ coords 2).flatten.filter
      (fun x => decide (0 < x))) = [] := by
    rw [List.filter_eq_nil_iff]
    intro a ha
    obtain ⟨q, hq, p, hp, rfl⟩ := mem_kneighbors_dists d ⟨coords⟩ coords 2 a ha
    simp [hzero q hq p hp]
  dsimp only
  rw [hfilter]
  rfl

/-- C9 witness (for the amended statement): two coincident points. -/
theorem reference_distance_coincident_witness :
    get_grid_reference_distance l1Dist [((0 : ℤ), 0), (0, 0)] none =
      .error .runtimeError :=
  reference_distance_coincident l1Dist [((0 : ℤ), 0), (0, 0)] none
    (by decide) (Or.inl rfl) (by decide)

/-- C9 counterexample to the claim as stated: on a fully coincident
coordinate set the result is neither an `EmptyResult`-style error nor a
returned sentinel value — it is the propagated runtime error (numpy's
`ValueError` from `.max()` on an empty array). -/
theorem reference_distance_coincident_cex :
    get_grid_reference_distance l1Dist [((3 : ℤ), 4), (3, 4), (3, 4)] none =
      .error .runtimeError := by
  decide

/-- Mapping over a list is mapping its indexed entries over the index list. -/
theorem map_eq_map_finRange {β γ : Type} (l : List β) (g : β → γ) :
    l.map g = (List.finRange l.length).map (fun i => g (l.get i)) := by
  conv_lhs => rw [← List.finRange_map_get l]
  rw [List.map_map]
  rfl

/-- Flattening the `Option.toList`s of `f` over a list collects the `some`
values of `f`. -/
theorem flatten_map_toList_eq_filterMap {β γ : Type} (l : List β)
    (f : β → Option γ) :
    (l.map (fun a => (f a).toList)).flatten = l.filterMap f := by
  induction l with
  | nil => rfl
  | cons a t ih =>
    simp only [List.map_cons, List.flatten_cons, List.filterMap_cons]
    cases f a with
    | none => simpa using ih
    | some b => simpa using ih

/-- In a sorted permutation `s` of a list `l` of length at least 2 whose
non-positive part is exactly one zero, the positive part of the two smallest
entries is the singleton of the minimum positive entry of `l`. -/
theorem sorted_take2_filter_pos (s l : List α) (hperm : s.Perm l)
    (hsorted : s.Sorted (· ≤ ·)) (hlen : 2 ≤ l.length)
    (hnp : l.filter (fun x => decide (x ≤ 0)) = [0]) :
    (s.take 2).filter (fun x => decide (0 < x)) =
      ((l.filter (fun x => decide (0 < x))).min?).toList := by
  have hsnp : s.filter (fun x => decide (x ≤ 0)) = [0] := by
    apply List.perm_singleton.mp
    rw [← hnp]
    exact hperm.filter _
  have hslen : 2 ≤ s.length := by rw [hperm.length_eq]; exact hlen
  cases s with
  | nil => simp at hslen
  | cons x s' =>
    cases s' with
    | nil => simp at hslen
    | cons y t =>
      obtain ⟨hx_le, hsorted'⟩ := List.sorted_cons.mp hsorted
      obtain ⟨hy_le, _⟩ := List.sorted_cons.mp hsorted'
      have hx0 : x = 0 := by
        by_cases hx : x ≤ 0
        · have hxf : x ∈ (x :: y :: t).filter (fun v => decide (v ≤ 0)) :=
            List.mem_filter.mpr ⟨List.mem_cons_self x _, by simpa using hx⟩
          rw [hsnp] at hxf
          simpa using hxf
        · have h0mem : (0 : α) ∈ (x :: y :: t).filter (fun v => decide (v ≤ 0)) := by
            rw [hsnp]; exact List.mem_cons_self 0 []
          have h0s : (0 : α) ∈ x :: y :: t := (List.mem_filter.mp h0mem).1
          rcases List.mem_cons.mp h0s with h | h
          · exact h.symm
          · exact absurd (hx_le 0 h) hx
      subst hx0
      have hcons : ((0 : α) :: y :: t).filter (fun v => decide (v ≤ 0)) =
          0 :: (y :: t).filter (fun v => decide (v ≤ 0)) :=
        List.filter_cons_of_pos (by simp)
      have htail : (y :: t).filter (fun v => decide (v ≤ 0)) = [] := by
        rw [hcons] at hsnp
        simpa using hsnp
      have htpos : ∀ b ∈ y :: t, 0 < b := by
        intro b hb
        by_contra hc
        push_neg at hc
        exact (List.filter_eq_nil_iff.mp htail b hb) (by simpa using hc)
      have hy : 0 < y := htpos y (List.mem_cons_self y t)
      have hsf : ((0 : α) :: y :: t).filter (fun v => decide (0 < v)) = y :: t := by
        rw [List.filter_cons_of_neg (by simp),
          List.filter_cons_of_pos (by simpa using hy),
          List.filter_eq_self.mpr
            (fun a ha => by simpa using htpos a (List.mem_cons.mpr (Or.inr ha)))]
      have hlp : (l.filter (fun v => decide (0 < v))).Perm (y :: t) := by
        have hps := hperm.symm.filter (fun v => decide (0 < v))
        rw [hsf] at hps
        exact hps
      have hmin : (l.filter (fun v => decide (0 < v))).min? = some y := by
        rw [min?_eq_some_iff_lo]
        refine ⟨hlp.mem_iff.mpr (List.mem_cons_self y t), fun b hb => ?_⟩
        rcases List.mem_cons.mp (hlp.mem_iff.mp hb) with h | h
        · exact h ▸ le_refl y
        · exact hy_le b h
      rw [hmin]
      rw [show (((0 : α) :: y :: t).take 2) = [0, y] from rfl]
      rw [List.filter_cons_of_neg (by simp),
        List.filter_cons_of_pos (by simpa using hy)]
      rfl

/-- For a coordinate set with pairwise positive distances, the positive part
of row `i` of the 2-nearest-neighbour distance matrix is the singleton of
point `i`'s minimum positive distance to the other points. -/
theorem row_filter_eq_minPos (d : Point α → Point α → α)
    (coords : List (Point α)) (i : Fin coords.length) (h2 : 2 ≤ coords.length)
    (hd0 : ∀ p ∈ coords, d p p = 0)
    (hpos : ∀ j k : Fin coords.length, j ≠ k →
      0 < d (coords.get j) (coords.get k)) :
    (((List.insertionSort (· ≤ ·)
        (coords.map (fun p => d (coords.get i) p))).take 2).filter
      (fun x => decide (0 < x))) = (minPosDistToOthers d coords i).toList := by
  have hmap : coords.map (fun p => d (coords.get i) p) =
      (List.finRange coords.length).map
        (fun j => d (coords.get i) (coords.get j)) :=
    map_eq_map_finRange coords _
  have hfil : (List.finRange coords.length).filter
      (fun j => decide (d (coords.get i) (coords.get j) ≤ 0)) = [i] := by
    apply filter_eq_singleton_of_nodup _ _ _ (List.nodup_finRange _)
      (List.mem_finRange i)
    intro j _
    by_cases hji : j = i
    · subst hji
      have h0 : d (coords.get j) (coords.get j) = 0 :=
        hd0 _ (List.get_mem coords j.val j.isLt)
      simp only [List.get_eq_getElem] at h0
      simp [h0]
    · have hp := hpos i j (Ne.symm hji)
      simp only [List.get_eq_getElem] at hp
      simp [hji, not_le.mpr hp]
  have hnp : (coords.map (fun p => d (coords.get i) p)).filter
      (fun x => decide (x ≤ 0)) = [0] := by
    rw [hmap, List.filter_map]
    rw [show ((fun x => decide (x ≤ 0)) ∘
        (fun j => d (coords.get i) (coords.get j))) =
      (fun j => decide (d (coords.get i) (coords.get j) ≤ 0)) from rfl]
    rw [hfil]
    have h0 : d (coords.get i) (coords.get i) = 0 :=
      hd0 _ (List.get_mem coords i.val i.isLt)
    simp only [List.get_eq_getElem] at h0
    simp [h0]
  have hrow := sorted_take2_filter_pos
    (List.insertionSort (· ≤ ·) (coords.map (fun p => d (coords.get i) p)))
    (coords.map (fun p => d (coords.get i) p))
    (List.perm_insertionSort _ _) (List.sorted_insertionSort _ _)
    (by simpa using h2) hnp
  rw [hrow]
  congr 1
  rw [minPosDistToOthers]
  congr 1
  rw [hmap, List.filter_map, List.filter_map, List.filter_filter]
  congr 1
  apply List.filter_congr
  intro j _
  by_cases hji : j = i
  · subst hji
    have h0 : d (coords.get j) (coords.get j) = 0 :=
      hd0 _ (List.get_mem coords j.val j.isLt)
    simp only [List.get_eq_getElem] at h0
    simp [h0]
  · have hp := hpos i j (Ne.symm hji)
    simp only [List.get_eq_getElem] at hp
    simp [hji, hp, Function.comp]

/-- For a coordinate set of at least two points, each point has at least one
other point, so its brute-force minimum positive distance exists. -/
theorem minPos_isSome (d : Point α → Point α → α) (coords : List (Point α))
    (i : Fin coords.length) (h2 : 2 ≤ coords.length)
    (hpos : ∀ j k : Fin coords.length, j ≠ k →
      0 < d (coords.get j) (coords.get k)) :
    ∃ y, minPosDistToOthers d coords i = some y := by
  cases hm : minPosDistToOthers d coords i with
  | some y => exact ⟨y, rfl⟩
  | none =>
    rw [minPosDistToOthers, List.min?_eq_none_iff] at hm
    have hj : ∃ j : Fin coords.length, j ≠ i := by
      by_cases hi0 : i.val = 0
      · refine ⟨⟨1, by omega⟩, ?_⟩
        intro hc
        have hv : (1 : ℕ) = i.val := congrArg Fin.val hc
        omega
      · refine ⟨⟨0, by omega⟩, ?_⟩
        intro hc
        have hv : (0 : ℕ) = i.val := congrArg Fin.val hc
        omega
    obtain ⟨j, hji⟩ := hj
    have hmem : d (coords.get i) (coords.get j) ∈
        ((((List.finRange coords.length).filter (fun k => decide (k ≠ i))).map
          (fun k => d (coords.get i) (coords.get k))).filter
            (fun x => decide (0 < x))) :=
      List.mem_filter.mpr
        ⟨List.mem_map.mpr ⟨j,
          List.mem_filter.mpr ⟨List.mem_finRange j, by simpa using hji⟩, rfl⟩,
         by simpa using hpos i j (Ne.symm hji)⟩
    rw [hm] at hmem
    simp at hmem

/-- C1 (amended): for a coordinate set of at least 2 points at pairwise
positive distances (and any accepted mask), `get_grid_reference_distance`
returns exactly the brute-force maximum over all points of that point's
minimum positive distance to any other point.  The hypotheses on `d` are the
relevant properties of the haversine metric (zero self-distance) together
with the amendment (no two points at distance zero); without the latter the
claim fails, see the counterexample. -/
theorem reference_distance_eq_bruteforce (d : Point α → Point α → α)
    (coords : List (Point α)) (mask : Option BTensor)
    (h2 : 2 ≤ coords.length) (hmask : ValidMask coords mask)
    (hd0 : ∀ p ∈ coords, d p p = 0)
    (hpos : ∀ j k : Fin coords.length, j ≠ k →
      0 < d (coords.get j) (coords.get k)) :
    ∃ v, get_grid_reference_distance d coords mask = .ok v ∧
      bruteForceRefDist d coords = some v := by
  have hkey : ((kneighbors_dists d ⟨coords⟩ coords 2).flatten.filter
      (fun x => decide (0 < x))) =
      (List.finRange coords.length).filterMap
        (fun i => minPosDistToOthers d coords i) := by
    rw [List.filter_flatten, kneighbors_dists, List.map_map,
      map_eq_map_finRange coords, ← flatten_map_toList_eq_filterMap]
    congr 1
    apply List.map_congr_left
    intro i _
    exact row_filter_eq_minPos d coords i h2 hd0 hpos
  obtain ⟨y, hy⟩ := minPos_isSome d coords ⟨0, by omega⟩ h2 hpos
  have hymem : y ∈ (List.finRange coords.length).filterMap
      (fun i => minPosDistToOthers d coords i) :=
    List.mem_filterMap.mpr ⟨⟨0, by omega⟩, List.mem_finRange _, hy⟩
  cases hmax : ((List.finRange coords.length).filterMap
      (fun i => minPosDistToOthers d coords i)).max? with
  | none =>
    rw [List.max?_eq_none_iff.mp hmax] at hymem
    simp at hymem
  | some v =>
    refine ⟨v, ?_, ?_⟩
    · unfold get_grid_reference_distance
      rw [get_nearest_neighbour_of_valid coords mask hmask]
      dsimp only
      rw [hkey, hmax]
    · rw [bruteForceRefDist]
      exact hmax

/-- C1 witness: three pairwise distinct points on a common meridian, where
the code's result and the brute-force result agree. -/
theorem reference_distance_eq_bruteforce_witness :
    ∃ v, get_grid_reference_distance l1Dist
        [((0 : ℤ), 0), (2, 0), (3, 0)] none = .ok v ∧
      bruteForceRefDist l1Dist [((0 : ℤ), 0), (2, 0), (3, 0)] = some v :=
  reference_distance_eq_bruteforce l1Dist [((0 : ℤ), 0), (2, 0), (3, 0)] none
    (by decide) (Or.inl rfl) (by decide) (by decide)

/-- C1 counterexample to the claim as stated: the coordinate set
`[(0,0), (0,0), (2,0), (3,0)]` (a duplicated point plus two others, hence at
least 2 distinct points) with the haversine distances along a meridian
(`d = |Δlat|` for `|Δlat| ≤ π`; here 2, 3 and 1).  The 2-nearest-neighbour
rows of the duplicated points are `[0, 0]`, so the code returns `1`, while
the brute-force maximum over points of the minimum positive distance to any
other point is `2` (attained at the duplicated points). -/
theorem reference_distance_bruteforce_cex :
    get_grid_reference_distance l1Dist
        [((0 : ℤ), 0), (0, 0), (2, 0), (3, 0)] none = .ok 1 ∧
    bruteForceRefDist l1Dist [((0 : ℤ), 0), (0, 0), (2, 0), (3, 0)] = some 2 ∧
    ((0 : ℤ), (0 : ℤ)) ≠ ((2 : ℤ), (0 : ℤ)) := by
  decide

end AnemoiGraphs
